import Mathlib

/-
Verification of the "Smart Image Preloader" (src/dist/preload_images.js).

The program scans a web page for image URLs, prioritises those whose
elements intersect the viewport, and drains the resulting queue in
concurrent batches of four, caching each fetched image body into a
persistent key-value store (IndexedDB) keyed by URL.

The JavaScript is shallowly embedded: the DOM is a list of elements
(image elements carrying a source URL and a bounding rectangle, anchor
elements carrying a target URL), the persistent store is an association
list from URL to blob bytes, the network is a function from URL to an
optional HTTP response, and the per-URL asynchronous race between the
image element's load/error callback and the unconditional 30000 ms timer
is represented by the set of times at which a registered resolver fires.
The batch scheduler's event-loop behaviour is a small-step transition
relation on a run state.
-/

namespace Preload

abbrev Url := String

abbrev Blob := List Nat

/-- Character-list test used to embed JavaScript `String.prototype.includes`:
`beginsWith p l` holds when `p` is an initial segment of `l`. -/
def beginsWith : List Char → List Char → Bool
  | [], _ => true
  | _ :: _, [] => false
  | p :: ps, c :: cs => p == c && beginsWith ps cs

/-- `hasSub pat l` holds when `pat` occurs contiguously somewhere in `l`. -/
def hasSub (pat : List Char) : List Char → Bool
  | [] => beginsWith pat []
  | c :: cs => beginsWith pat (c :: cs) || hasSub pat cs

/-- Embedding of `s.includes(pat)`: case-sensitive substring occurrence
anywhere in the string. -/
def strContains (s pat : String) : Bool := hasSub pat.data s.data

/-- Bounding rectangle of an element, as produced by
`getBoundingClientRect()`. -/
structure Rect where
  top : Int
  left : Int
  bottom : Int
  right : Int
deriving DecidableEq

/-- Viewport dimensions (`window.innerHeight`, `window.innerWidth`). -/
structure Viewport where
  innerHeight : Int
  innerWidth : Int
deriving DecidableEq

/-- The document elements the preloader queries: `<img>` elements with
their resolved `src` and bounding rectangle, and `<a>` elements with
their resolved `href`. -/
inductive Element where
  | img (src : String) (rect : Rect)
  | anchor (href : String)
deriving DecidableEq

abbrev Document := List Element

/-- Embedding of `isElementInViewport(el)` (preload_images.js lines
162-170): the bounding rectangle overlaps the viewport. -/
def isElementInViewport (vp : Viewport) (rect : Rect) : Bool :=
  rect.top < vp.innerHeight && rect.left < vp.innerWidth &&
    rect.bottom > 0 && rect.right > 0

/-- The per-element body of the image half of `getAllImageUrls`
(lines 139-141): push `img.src` whenever it is truthy (non-empty);
anchors are not selected by `querySelectorAll('img')`. -/
def imgUrlOf : Element → Option Url
  | .img src _ => if src ≠ "" then some src else none
  | .anchor _ => none

/-- The image-element half of `getAllImageUrls` (lines 138-141):
`document.querySelectorAll('img')` traversed in document order. -/
def imgUrls (doc : Document) : List Url :=
  doc.filterMap imgUrlOf

/-- The extension test applied to anchor targets (line 144):
`link.href.includes('.jpg') || ... '.jpeg' || ... '.png' || ... '.webp'`. -/
def isImageLink (href : String) : Bool :=
  strContains href ".jpg" || strContains href ".jpeg" ||
    strContains href ".png" || strContains href ".webp"

/-- The per-element body of the anchor half of `getAllImageUrls`
(lines 143-146): anchors whose `href` is truthy and contains one of the
image extensions as a substring; image elements are not selected by the
anchor query. -/
def linkUrlOf : Element → Option Url
  | .img _ _ => none
  | .anchor href => if href ≠ "" ∧ isImageLink href then some href else none

/-- The anchor half of `getAllImageUrls` (lines 142-147). -/
def linkUrls (doc : Document) : List Url :=
  doc.filterMap linkUrlOf

/-- Worker for `dedupFirst`: `seen` accumulates the URLs already kept, so
each URL is kept at its first occurrence only, in order. -/
def dedupFirstAux (seen : List Url) : List Url → List Url
  | [] => []
  | u :: rest =>
    if u ∈ seen then dedupFirstAux seen rest
    else u :: dedupFirstAux (u :: seen) rest

/-- Embedding of `[...new Set(urls)]` (line 148): deduplication keeping
the first occurrence of each URL, preserving insertion order. -/
def dedupFirst (l : List Url) : List Url := dedupFirstAux [] l

/-- Embedding of `getAllImageUrls()` (lines 136-149): image sources, then
matching anchor targets, deduplicated first-seen. -/
def getAllImageUrls (doc : Document) : List Url :=
  dedupFirst (imgUrls doc ++ linkUrls doc)

/-- The per-element body of `getVisibleImageUrls` (lines 154-158):
push `img.src` when it is truthy and the element intersects the
viewport. -/
def visibleUrlOf (vp : Viewport) : Element → Option Url
  | .img src rect =>
      if src ≠ "" ∧ isElementInViewport vp rect then some src else none
  | .anchor _ => none

/-- Embedding of `getVisibleImageUrls()` (lines 151-160): sources of image
elements whose rectangle intersects the viewport, in document order, with
no deduplication. -/
def getVisibleImageUrls (doc : Document) (vp : Viewport) : List Url :=
  doc.filterMap (visibleUrlOf vp)

/-- Embedding of the queue built by `startPreloading()` (lines 95-108):
`offScreenImages = imageUrls.filter(url => !visibleImages.includes(url))`
and `preloadingQueue = [...visibleImages, ...offScreenImages]`. -/
def startPreloading (doc : Document) (vp : Viewport) : List Url :=
  let imageUrls := getAllImageUrls doc
  let visibleImages := getVisibleImageUrls doc vp
  let offScreenImages := imageUrls.filter fun url => !(visibleImages.contains url)
  visibleImages ++ offScreenImages

theorem mem_dedupFirstAux (seen l : List Url) (x : Url) :
    x ∈ dedupFirstAux seen l ↔ x ∈ l ∧ x ∉ seen := by
  induction l generalizing seen with
  | nil => simp [dedupFirstAux]
  | cons u rest ih =>
    by_cases h : u ∈ seen
    · rw [dedupFirstAux, if_pos h, ih]
      constructor
      · rintro ⟨hx, hns⟩
        exact ⟨List.mem_cons_of_mem _ hx, hns⟩
      · rintro ⟨hx, hns⟩
        rcases List.mem_cons.mp hx with rfl | hx
        · exact absurd h hns
        · exact ⟨hx, hns⟩
    · rw [dedupFirstAux, if_neg h]
      constructor
      · intro hx
        rcases List.mem_cons.mp hx with rfl | hx
        · exact ⟨List.mem_cons_self x rest, h⟩
        · obtain ⟨h1, h2⟩ := (ih (u :: seen)).mp hx
          exact ⟨List.mem_cons_of_mem _ h1, fun hs => h2 (List.mem_cons_of_mem _ hs)⟩
      · rintro ⟨hx, hns⟩
        rcases List.mem_cons.mp hx with rfl | hx
        · exact List.mem_cons_self x _
        · by_cases hxu : x = u
          · exact hxu ▸ List.mem_cons_self x _
          · refine List.mem_cons_of_mem _ ((ih (u :: seen)).mpr ⟨hx, fun hs => ?_⟩)
            rcases List.mem_cons.mp hs with h1 | h1
            · exact hxu h1
            · exact hns h1

theorem nodup_dedupFirstAux (seen l : List Url) :
    (dedupFirstAux seen l).Nodup := by
  induction l generalizing seen with
  | nil => simp [dedupFirstAux]
  | cons u rest ih =>
    by_cases h : u ∈ seen
    · rw [dedupFirstAux, if_pos h]
      exact ih seen
    · rw [dedupFirstAux, if_neg h]
      refine List.nodup_cons.mpr ⟨?_, ih (u :: seen)⟩
      intro hmem
      exact ((mem_dedupFirstAux _ _ _).mp hmem).2 (List.mem_cons_self u seen)

theorem sublist_dedupFirstAux (seen l : List Url) :
    List.Sublist (dedupFirstAux seen l) l := by
  induction l generalizing seen with
  | nil => simp [dedupFirstAux]
  | cons u rest ih =>
    by_cases h : u ∈ seen
    · rw [dedupFirstAux, if_pos h]
      exact List.Sublist.cons u (ih seen)
    · rw [dedupFirstAux, if_neg h]
      exact List.Sublist.cons₂ u (ih (u :: seen))

theorem nodup_getAllImageUrls (doc : Document) :
    (getAllImageUrls doc).Nodup := nodup_dedupFirstAux _ _

theorem indexOf_dedupFirstAux (seen l : List Url) (u v : Url)
    (hu : u ∈ dedupFirstAux seen l) (hv : v ∈ dedupFirstAux seen l) :
    ((dedupFirstAux seen l).indexOf u < (dedupFirstAux seen l).indexOf v ↔
      l.indexOf u < l.indexOf v) := by
  induction l generalizing seen with
  | nil => simp [dedupFirstAux] at hu
  | cons u0 rest ih =>
    by_cases h : u0 ∈ seen
    · rw [dedupFirstAux, if_pos h] at hu hv ⊢
      have hu0 : u0 ≠ u := fun he => ((mem_dedupFirstAux _ _ _).mp hu).2 (he ▸ h)
      have hv0 : u0 ≠ v := fun he => ((mem_dedupFirstAux _ _ _).mp hv).2 (he ▸ h)
      rw [List.indexOf_cons_ne rest hu0, List.indexOf_cons_ne rest hv0,
        Nat.succ_lt_succ_iff]
      exact ih seen hu hv
    · rw [dedupFirstAux, if_neg h] at hu hv ⊢
      by_cases huu : u = u0
      · subst huu
        by_cases hvv : v = u
        · subst hvv
          simp
        · have hvu : u ≠ v := fun he => hvv he.symm
          refine iff_of_true ?_ ?_
          · rw [List.indexOf_cons_self, List.indexOf_cons_ne _ hvu]
            exact Nat.succ_pos _
          · rw [List.indexOf_cons_self, List.indexOf_cons_ne _ hvu]
            exact Nat.succ_pos _
      · by_cases hvv : v = u0
        · subst hvv
          have huv : v ≠ u := fun he => huu he.symm
          refine iff_of_false ?_ ?_
          · rw [List.indexOf_cons_self, List.indexOf_cons_ne _ huv]
            exact Nat.not_lt_zero _
          · rw [List.indexOf_cons_self, List.indexOf_cons_ne _ huv]
            exact Nat.not_lt_zero _
        · have hu' : u ∈ dedupFirstAux (u0 :: seen) rest := by
            rcases List.mem_cons.mp hu with h1 | h1
            · exact absurd h1 huu
            · exact h1
          have hv' : v ∈ dedupFirstAux (u0 :: seen) rest := by
            rcases List.mem_cons.mp hv with h1 | h1
            · exact absurd h1 hvv
            · exact h1
          have h1 : u0 ≠ u := fun he => huu he.symm
          have h2 : u0 ≠ v := fun he => hvv he.symm
          rw [List.indexOf_cons_ne _ h1, List.indexOf_cons_ne _ h2,
            List.indexOf_cons_ne rest h1, List.indexOf_cons_ne rest h2,
            Nat.succ_lt_succ_iff, Nat.succ_lt_succ_iff]
          exact ih (u0 :: seen) hu' hv'

theorem mem_imgUrls (doc : Document) (u : Url) :
    u ∈ imgUrls doc ↔ u ≠ "" ∧ ∃ r, Element.img u r ∈ doc := by
  rw [imgUrls, List.mem_filterMap]
  constructor
  · rintro ⟨e, he, hf⟩
    cases e with
    | img src rect =>
      simp only [imgUrlOf] at hf
      by_cases h : src ≠ ""
      · rw [if_pos h] at hf
        injection hf with h1
        subst h1
        exact ⟨h, rect, he⟩
      · rw [if_neg h] at hf
        exact Option.noConfusion hf
    | anchor href => simp [imgUrlOf] at hf
  · rintro ⟨hne, r, hr⟩
    exact ⟨Element.img u r, hr, by simp [imgUrlOf, if_pos hne]⟩

theorem mem_linkUrls (doc : Document) (u : Url) :
    u ∈ linkUrls doc ↔ (u ≠ "" ∧ isImageLink u = true) ∧ Element.anchor u ∈ doc := by
  rw [linkUrls, List.mem_filterMap]
  constructor
  · rintro ⟨e, he, hf⟩
    cases e with
    | img src rect => simp [linkUrlOf] at hf
    | anchor href =>
      simp only [linkUrlOf] at hf
      by_cases h : href ≠ "" ∧ isImageLink href
      · rw [if_pos h] at hf
        injection hf with h1
        subst h1
        exact ⟨⟨h.1, h.2⟩, he⟩
      · rw [if_neg h] at hf
        exact Option.noConfusion hf
  · rintro ⟨⟨hne, hext⟩, hr⟩
    exact ⟨Element.anchor u, hr, by simp [linkUrlOf, if_pos (And.intro hne hext)]⟩

theorem filterMap_sublist_of_imp {f g : Element → Option Url}
    (h : ∀ e u, f e = some u → g e = some u) (doc : Document) :
    List.Sublist (doc.filterMap f) (doc.filterMap g) := by
  induction doc with
  | nil => simp
  | cons e rest ih =>
    rw [List.filterMap_cons, List.filterMap_cons]
    cases hf : f e with
    | none =>
      cases hg : g e with
      | none => exact ih
      | some w => exact List.Sublist.cons w ih
    | some w =>
      rw [h e w hf]
      exact List.Sublist.cons₂ w ih

theorem visible_sublist_imgUrls (doc : Document) (vp : Viewport) :
    List.Sublist (getVisibleImageUrls doc vp) (imgUrls doc) := by
  refine filterMap_sublist_of_imp (fun e u hf => ?_) doc
  cases e with
  | img src rect =>
    simp only [visibleUrlOf] at hf
    by_cases h : src ≠ "" ∧ isElementInViewport vp rect
    · rw [if_pos h] at hf
      simpa [imgUrlOf, if_pos h.1] using hf
    · rw [if_neg h] at hf
      exact Option.noConfusion hf
  | anchor href => simp [visibleUrlOf] at hf

/-- The off-screen part of the queue, as `startPreloading` computes it:
`imageUrls.filter(url => !visibleImages.includes(url))` (line 101). -/
def offScreenUrls (doc : Document) (vp : Viewport) : List Url :=
  (getAllImageUrls doc).filter fun url => !((getVisibleImageUrls doc vp).contains url)

theorem mem_offScreenUrls_not_visible (doc : Document) (vp : Viewport) (u : Url)
    (h : u ∈ offScreenUrls doc vp) : u ∉ getVisibleImageUrls doc vp := by
  have hc := (List.mem_filter.mp h).2
  simpa using hc

/-- Concrete rectangle intersecting the example viewport. -/
def visRect : Rect := { top := 0, left := 0, bottom := 10, right := 10 }

/-- Concrete rectangle below the example viewport (top 200 ≥ height 100). -/
def offRect : Rect := { top := 200, left := 0, bottom := 300, right := 10 }

/-- Example viewport 100 × 100. -/
def exVp : Viewport := { innerHeight := 100, innerWidth := 100 }

/-- The spec's ordering scenario: discovered = A off-screen, B visible,
C off-screen, D visible. -/
def exDoc : Document :=
  [Element.img "A" offRect, Element.img "B" visRect,
   Element.img "C" offRect, Element.img "D" visRect]

/-- Claim C3: the queue built by `startPreloading` is exactly
`visible ++ offscreen`; the off-screen part is a sublist of the
discovered list (keeping discovery order), the visible part is a sublist
of the image-element scan (keeping its document order), no off-screen
entry is visible, and on the spec's scenario (A off, B vis, C off, D vis)
the queue is [B, D, A, C]. -/
theorem startPreloading_queue_spec (doc : Document) (vp : Viewport) :
    startPreloading doc vp = getVisibleImageUrls doc vp ++ offScreenUrls doc vp ∧
    List.Sublist (offScreenUrls doc vp) (getAllImageUrls doc) ∧
    List.Sublist (getVisibleImageUrls doc vp) (imgUrls doc) ∧
    (∀ u ∈ offScreenUrls doc vp, u ∉ getVisibleImageUrls doc vp) ∧
    startPreloading exDoc exVp = ["B", "D", "A", "C"] := by
  refine ⟨rfl, List.filter_sublist _, visible_sublist_imgUrls doc vp,
    fun u hu => mem_offScreenUrls_not_visible doc vp u hu, by decide⟩

/-- Document with two in-viewport image elements sharing one source URL. -/
def dupDoc : Document :=
  [Element.img "a.jpg" visRect, Element.img "a.jpg" visRect]

/-- Claim C2 counterexample: with two visible image elements sharing the
source URL "a.jpg", the queue built by `startPreloading` holds that URL
twice — the visible scan does not deduplicate, so the concatenated queue
is not duplicate-free. -/
theorem queue_dup_counterexample :
    startPreloading dupDoc exVp = ["a.jpg", "a.jpg"] ∧
    ¬ (startPreloading dupDoc exVp).Nodup := by
  exact ⟨by decide, by decide⟩

/-- Claim C2 (amended): the off-screen part of the queue is always
duplicate-free, and whenever the visible scan yields no duplicate (in
particular whenever no two in-viewport image elements share a source
URL), the whole queue `visible ++ offscreen` is duplicate-free. -/
theorem queue_nodup_of_visible_nodup (doc : Document) (vp : Viewport) :
    (offScreenUrls doc vp).Nodup ∧
    ((getVisibleImageUrls doc vp).Nodup → (startPreloading doc vp).Nodup) := by
  have hoff : (offScreenUrls doc vp).Nodup :=
    (nodup_getAllImageUrls doc).filter _
  refine ⟨hoff, fun hvis => ?_⟩
  show (getVisibleImageUrls doc vp ++ offScreenUrls doc vp).Nodup
  refine List.Nodup.append hvis hoff ?_
  intro a ha haf
  exact mem_offScreenUrls_not_visible doc vp a haf ha

/-- Claim C8: `getAllImageUrls` returns exactly the truthy image-element
sources together with the truthy anchor targets containing one of
".jpg", ".jpeg", ".png", ".webp" as a case-sensitive substring; the
result is duplicate-free, is a sublist of the raw scan (images first,
then anchors), and orders URLs by first occurrence in that scan. The
extension test matches anywhere in the URL (a query-string occurrence
matches) and is case-sensitive (".JPG" does not match). -/
theorem getAllImageUrls_spec (doc : Document) :
    (∀ u, u ∈ getAllImageUrls doc ↔
      (u ≠ "" ∧ ∃ r, Element.img u r ∈ doc) ∨
      ((u ≠ "" ∧ isImageLink u = true) ∧ Element.anchor u ∈ doc)) ∧
    (getAllImageUrls doc).Nodup ∧
    List.Sublist (getAllImageUrls doc) (imgUrls doc ++ linkUrls doc) ∧
    (∀ u v, u ∈ getAllImageUrls doc → v ∈ getAllImageUrls doc →
      ((getAllImageUrls doc).indexOf u < (getAllImageUrls doc).indexOf v ↔
        (imgUrls doc ++ linkUrls doc).indexOf u <
          (imgUrls doc ++ linkUrls doc).indexOf v)) ∧
    isImageLink "https://h.example/dl?f=.jpg&n=1" = true ∧
    isImageLink "https://h.example/PHOTO.JPG" = false := by
  refine ⟨?_, nodup_getAllImageUrls doc, sublist_dedupFirstAux _ _,
    ?_, by decide, by decide⟩
  · intro u
    rw [getAllImageUrls, dedupFirst, mem_dedupFirstAux]
    simp only [List.not_mem_nil, not_false_iff, and_true, List.mem_append]
    rw [mem_imgUrls, mem_linkUrls]
  · intro u v hu hv
    exact indexOf_dedupFirstAux [] _ u v hu hv

/-- An HTTP response as the worker observes it: a status code and the
body bytes read by `response.blob()`. -/
structure Response where
  status : Nat
  body : Blob
deriving DecidableEq

/-- Embedding of `response.ok`: status in the 2xx range. -/
def Response.ok (r : Response) : Bool := 200 ≤ r.status && r.status < 300

/-- The persistent store (IndexedDB object store `imageCache`): an
association list from URL key to blob value. -/
abbrev Store := List (Url × Blob)

/-- Embedding of `store.put(blob, url)` (line 59): upsert of `blob` under
key `url`, replacing any previous entry for that key. -/
def storePut (store : Store) (url : Url) (blob : Blob) : Store :=
  (store.filter fun e => e.1 ≠ url) ++ [(url, blob)]

/-- Lookup in the persistent store by URL key. -/
def storeGet (store : Store) (url : Url) : Option Blob :=
  (store.find? fun e => e.1 == url).map Prod.snd

theorem storeGet_storePut (store : Store) (url : Url) (blob : Blob) :
    storeGet (storePut store url blob) url = some blob := by
  rw [storeGet, storePut]
  induction store with
  | nil => simp [List.find?]
  | cons e rest ih =>
    by_cases h : e.1 = url
    · rw [List.filter_cons_of_neg (by simp [h])]
      exact ih
    · rw [List.filter_cons_of_pos (by simp [h]), List.cons_append,
        List.find?_cons_of_neg _ (by simp [h])]
      exact ih

/-- The network as the worker sees it: `fetch(url)` either rejects
(`none`) or yields a response. -/
abbrev Network := Url → Option Response

/-- The body of the `try` block of `cacheImage` (lines 53-59): reject on
network failure, throw `HTTP <status>` on a non-2xx response, otherwise
read the body and put it into the store under the URL. The `Except`
value is the exception that the surrounding `catch` will observe. -/
def cacheImageTry (fetch : Network) (store : Store) (url : Url) :
    Except String Store :=
  match fetch url with
  | none => Except.error "network request failed"
  | some response =>
    if response.ok then Except.ok (storePut store url response.body)
    else Except.error ("HTTP " ++ toString response.status)

/-- What one `cacheImage(url)` call did: the store handle afterwards,
whether the explicit caching `fetch` was issued, how many `store.put`
calls were made, and the diagnostic log line if the attempt failed. -/
structure CacheResult where
  db : Option Store
  fetched : Bool
  putCount : Nat
  logged : Option String
deriving DecidableEq

/-- The log line of the `catch` branch (line 61). -/
def cacheFailMsg (url msg : String) : String :=
  "Failed to cache image " ++ url ++ ": " ++ msg

/-- Embedding of `cacheImage(url)` (lines 49-63): return immediately when
the store handle is absent (`if (!this.db) return`), otherwise run the
`try` block and convert any exception into a log line. It is total: no
exception escapes. -/
def cacheImage (fetch : Network) (db : Option Store) (url : Url) : CacheResult :=
  match db with
  | none => { db := none, fetched := false, putCount := 0, logged := none }
  | some store =>
    match cacheImageTry fetch store url with
    | Except.ok store1 =>
        { db := some store1, fetched := true, putCount := 1, logged := none }
    | Except.error msg =>
        { db := some store, fetched := true, putCount := 0,
          logged := some (cacheFailMsg url msg) }

/-- Which image-element callback eventually fires for a URL. -/
inductive ImgCallback where
  | onload
  | onerror
deriving DecidableEq

/-- The asynchronous environment of one `preloadImage` call: whether the
image element ever fires `onload`/`onerror` (and at what millisecond),
and the network used by the caching fetch. -/
structure Env where
  event : Option (ImgCallback × Nat)
  fetch : Network

/-- The times at which a resolver of the `preloadImage` promise fires:
the load/error callback when the image element ever fires one, and the
unconditional `setTimeout(() => resolve(), 30000)` (line 91), which is
registered on every non-fast-path call. -/
def resolveTimes (env : Env) : List Nat :=
  (match env.event with
   | some (_, t) => [t]
   | none => []) ++ [30000]

/-- The earliest firing time among registered resolvers: the moment the
promise settles. `none` would mean no resolver ever fires. -/
def firstSettle : List Nat → Option Nat
  | [] => none
  | t :: ts =>
    match firstSettle ts with
    | none => some t
    | some u => some (min t u)

/-- What one `preloadImage(url)` call did: whether it took the
already-seen fast path, the SeenSet afterwards, the store handle
afterwards, when its promise settles, and how much caching work it
performed. -/
structure PreloadResult where
  fastPath : Bool
  seen : List Url
  db : Option Store
  settleTime : Option Nat
  fetched : Bool
  putCount : Nat
deriving DecidableEq

/-- Embedding of `preloadImage(url)` (lines 65-93). If the URL is in
`preloadedUrls`, return an already-resolved promise with no work (lines
66-68). Otherwise the URL is added to `preloadedUrls` synchronously
(line 70), before any asynchronous work, and the promise is resolved by
whichever fires first of the image element's load/error callback (each
of which runs `cacheImage` before resolving, lines 75-85) and the
unconditional 30-second timer (line 91). When neither callback ever
fires, only the timer resolves and no caching work happens; when a
callback fires, `cacheImage` runs even if the timer has already resolved
the promise (a straggler write). -/
def preloadImage (env : Env) (seen : List Url) (db : Option Store) (url : Url) :
    PreloadResult :=
  if seen.contains url then
    { fastPath := true, seen := seen, db := db, settleTime := some 0,
      fetched := false, putCount := 0 }
  else
    let seen1 := seen ++ [url]
    match env.event with
    | some _ =>
      let c := cacheImage env.fetch db url
      { fastPath := false, seen := seen1, db := c.db,
        settleTime := firstSettle (resolveTimes env),
        fetched := c.fetched, putCount := c.putCount }
    | none =>
      { fastPath := false, seen := seen1, db := db,
        settleTime := firstSettle (resolveTimes env),
        fetched := false, putCount := 0 }

theorem preload_settle_bound (env : Env) (seen : List Url) (db : Option Store)
    (url : Url) :
    ∃ t, (preloadImage env seen db url).settleTime = some t ∧ t ≤ 30000 := by
  rw [preloadImage]
  by_cases h : seen.contains url
  · rw [if_pos h]
    exact ⟨0, rfl, by omega⟩
  · rw [if_neg h]
    cases hev : env.event with
    | none =>
      refine ⟨30000, ?_, le_refl _⟩
      simp [resolveTimes, firstSettle, hev]
    | some e =>
      refine ⟨min e.2 30000, ?_, min_le_right _ _⟩
      simp [resolveTimes, firstSettle, hev]

/-- Claim C1: every `preloadImage` call settles, and within 30000 ms:
the fast path returns an already-resolved promise, and otherwise the
unconditionally registered 30-second timer bounds the first resolver
firing, whether or not the image element ever fires a callback. The
result is a total value: no exception escapes the call, and the source
promise executor never calls `reject`. -/
theorem preload_always_settles (env : Env) (seen : List Url) (db : Option Store)
    (url : Url) :
    ∃ t, (preloadImage env seen db url).settleTime = some t ∧ t ≤ 30000 :=
  preload_settle_bound env seen db url

theorem cacheImage_putCount_le_one (fetch : Network) (db : Option Store)
    (url : Url) : (cacheImage fetch db url).putCount ≤ 1 := by
  cases db with
  | none => exact Nat.zero_le 1
  | some store =>
    cases h : cacheImageTry fetch store url <;> simp [cacheImage, h]

theorem preload_twice_at_most_one_put (env1 : Env) (seen0 : List Url)
    (db1 : Option Store) (url : Url) :
    (preloadImage env1 seen0 db1 url).putCount +
      (preloadImage env1 (preloadImage env1 seen0 db1 url).seen
        (preloadImage env1 seen0 db1 url).db url).putCount ≤ 1 := by
  by_cases hm : url ∈ seen0
  · simp [preloadImage, hm]
  · have hseen : (preloadImage env1 seen0 db1 url).seen = seen0 ++ [url] := by
      cases hev : env1.event <;> simp [preloadImage, hm, hev]
    have hurl : url ∈ seen0 ++ [url] := by simp
    have hsecond : ∀ db2 : Option Store,
        (preloadImage env1 (seen0 ++ [url]) db2 url).putCount = 0 := by
      intro db2
      simp [preloadImage, hurl]
    rw [hseen, hsecond, Nat.add_zero]
    cases hev : env1.event with
    | none => simp [preloadImage, hm, hev]
    | some e =>
      have : (preloadImage env1 seen0 db1 url).putCount =
          (cacheImage env1.fetch db1 url).putCount := by
        simp [preloadImage, hm, hev]
      rw [this]
      exact cacheImage_putCount_le_one env1.fetch db1 url

/-- Claim C4 (amended): a second `preloadImage` call for the same URL,
issued with the state left by a first (non-fast-path) call, takes the
fast path: it returns an already-resolved promise (settle time 0),
issues no fetch and no put, and leaves SeenSet and store unchanged. The
two calls together perform at most one `store.put`, and exactly one
under a successful first call (image callback fires, store open, caching
fetch 2xx) — but zero when the first call fails, which is why "exactly
one" does not hold unconditionally (see the counterexample). The URL is
in the SeenSet after the first call whatever the asynchronous
environment does, because line 70 adds it synchronously before any
asynchronous work. -/
theorem preload_second_call_fast_path (env : Env) (seen0 : List Url)
    (db : Option Store) (url : Url)
    (hnew : seen0.contains url = false)
    (e : ImgCallback × Nat) (hev : env.event = some e)
    (store : Store) (hdb : db = some store)
    (r : Response) (hfetch : env.fetch url = some r) (hok : r.ok = true) :
    (preloadImage env (preloadImage env seen0 db url).seen
        (preloadImage env seen0 db url).db url).fastPath = true ∧
    (preloadImage env (preloadImage env seen0 db url).seen
        (preloadImage env seen0 db url).db url).fetched = false ∧
    (preloadImage env (preloadImage env seen0 db url).seen
        (preloadImage env seen0 db url).db url).settleTime = some 0 ∧
    (preloadImage env (preloadImage env seen0 db url).seen
        (preloadImage env seen0 db url).db url).seen =
      (preloadImage env seen0 db url).seen ∧
    (preloadImage env (preloadImage env seen0 db url).seen
        (preloadImage env seen0 db url).db url).db =
      (preloadImage env seen0 db url).db ∧
    (preloadImage env seen0 db url).putCount +
      (preloadImage env (preloadImage env seen0 db url).seen
        (preloadImage env seen0 db url).db url).putCount = 1 ∧
    (∀ env1 : Env, ∀ db1 : Option Store,
      (preloadImage env1 seen0 db1 url).putCount +
        (preloadImage env1 (preloadImage env1 seen0 db1 url).seen
          (preloadImage env1 seen0 db1 url).db url).putCount ≤ 1) ∧
    (∀ env1 : Env, url ∈ (preloadImage env1 seen0 db url).seen) := by
  subst hdb
  have hmem : url ∉ seen0 := by
    intro hm
    simp [hm] at hnew
  have hfirst : preloadImage env seen0 (some store) url =
      { fastPath := false, seen := seen0 ++ [url],
        db := some (storePut store url r.body),
        settleTime := firstSettle (resolveTimes env),
        fetched := true, putCount := 1 } := by
    simp [preloadImage, hmem, hev, cacheImage, cacheImageTry, hfetch, hok]
  have hcontains : (seen0 ++ [url]).contains url = true := by simp
  have hsecond : preloadImage env (seen0 ++ [url])
      (some (storePut store url r.body)) url =
      { fastPath := true, seen := seen0 ++ [url],
        db := some (storePut store url r.body),
        settleTime := some 0, fetched := false, putCount := 0 } := by
    simp [preloadImage, hcontains]
  rw [hfirst]
  refine ⟨?_, ?_, ?_, ?_, ?_, ?_, ?_, ?_⟩
  · rw [hsecond]
  · rw [hsecond]
  · rw [hsecond]
  · rw [hsecond]
  · rw [hsecond]
  · rw [hsecond]
    rfl
  · intro env1 db1
    exact preload_twice_at_most_one_put env1 seen0 db1 url
  · intro env1
    cases henv : env1.event <;> simp [preloadImage, hmem, henv]

/-- Concrete environment for the C4 witness: the image load callback
fires at 5 ms and every fetch yields a 2xx response with bytes [1, 2]. -/
def envW : Env :=
  { event := some (ImgCallback.onload, 5),
    fetch := fun _ => some { status := 200, body := [1, 2] } }

theorem preload_second_call_fast_path_witness :
    (preloadImage envW (preloadImage envW [] (some []) "a.jpg").seen
        (preloadImage envW [] (some []) "a.jpg").db "a.jpg").fastPath = true :=
  (preload_second_call_fast_path envW [] (some []) "a.jpg" rfl
    (ImgCallback.onload, 5) rfl [] rfl { status := 200, body := [1, 2] }
    rfl rfl).1

/-- Concrete environment for the C4 counterexample: neither image
callback ever fires, so the first call settles through the 30-second
timer and performs no caching work at all. -/
def envTimeoutC4 : Env := { event := none, fetch := fun _ => none }

/-- Claim C4 counterexample: when the first call's image element never
fires a callback (timeout mode), the two calls for "a.jpg" together
perform zero `store.put` calls, refuting "the two calls together cause
exactly one Store.put for that URL" as an unconditional statement. -/
theorem preload_twice_zero_puts_counterexample :
    (preloadImage envTimeoutC4 [] (some []) "a.jpg").putCount +
      (preloadImage envTimeoutC4
        (preloadImage envTimeoutC4 [] (some []) "a.jpg").seen
        (preloadImage envTimeoutC4 [] (some []) "a.jpg").db "a.jpg").putCount
      = 0 := by
  decide

/-- The failure modes of one URL's processing in which no caching write
can happen: store unavailable at open, network failure of the caching
fetch, non-2xx HTTP status, and timeout (neither image callback ever
fires, so `cacheImage` is never invoked). -/
def NonCachingFailure (env : Env) (db : Option Store) (url : Url) : Prop :=
  db = none ∨ env.fetch url = none ∨
    (∃ r, env.fetch url = some r ∧ r.ok = false) ∨ env.event = none

/-- Claim C5 (amended): in every failure mode no error propagates past
the Worker — the promise settles within 30000 ms and `cacheImage`
converts every exception of its try block into a log line and a
terminal-local result. In the store-unavailable, network-failure,
non-2xx-status and timeout modes nothing is cached: no put happens and
the store handle is unchanged. (An image decode/load failure, by
contrast, still attempts caching and may succeed — see the
counterexample.) -/
theorem worker_failures_swallowed (env : Env) (seen : List Url)
    (db : Option Store) (url : Url) (h : NonCachingFailure env db url) :
    (∃ t, (preloadImage env seen db url).settleTime = some t ∧ t ≤ 30000) ∧
    (preloadImage env seen db url).putCount = 0 ∧
    (preloadImage env seen db url).db = db ∧
    (∀ store msg, cacheImageTry env.fetch store url = Except.error msg →
      cacheImage env.fetch (some store) url =
        { db := some store, fetched := true, putCount := 0,
          logged := some (cacheFailMsg url msg) }) := by
  refine ⟨preload_settle_bound env seen db url, ?_, ?_,
    fun store msg herr => by simp [cacheImage, herr]⟩ <;>
  · by_cases hm : url ∈ seen
    · simp [preloadImage, hm]
    · cases hev : env.event with
      | none => simp [preloadImage, hm, hev]
      | some e =>
        rcases h with hdb | hnet | ⟨r, hr, hok⟩ | htime
        · subst hdb
          simp [preloadImage, hm, hev, cacheImage]
        · cases db with
          | none => simp [preloadImage, hm, hev, cacheImage]
          | some store =>
            simp [preloadImage, hm, hev, cacheImage, cacheImageTry, hnet]
        · cases db with
          | none => simp [preloadImage, hm, hev, cacheImage]
          | some store =>
            simp [preloadImage, hm, hev, cacheImage, cacheImageTry, hr, hok]
        · rw [htime] at hev
          exact Option.noConfusion hev

/-- Concrete environment for the C5 witness: the timeout mode — neither
image callback ever fires and the network always fails. -/
def envTimeoutW : Env := { event := none, fetch := fun _ => none }

theorem worker_failures_swallowed_witness :
    (preloadImage envTimeoutW [] (some []) "a.jpg").putCount = 0 :=
  (worker_failures_swallowed envTimeoutW [] (some []) "a.jpg"
    (Or.inr (Or.inr (Or.inr rfl)))).2.1

/-- Concrete environment for the C5 counterexample: the image element
fires `onerror` (decode/load failure) at 5 ms while the caching fetch
succeeds with bytes [7]. -/
def envErrW : Env :=
  { event := some (ImgCallback.onerror, 5),
    fetch := fun _ => some { status := 200, body := [7] } }

/-- Claim C5 counterexample: under an image decode/load failure (the
`onerror` callback) with an open store and a successful caching fetch,
the Worker does cache: `store.put` runs once and the store ends up
holding the entry — contradicting "resolves its outcome with nothing
cached" for the decode/load-failure mode. -/
theorem decode_failure_still_caches :
    (preloadImage envErrW [] (some []) "a.jpg").putCount = 1 ∧
    (preloadImage envErrW [] (some []) "a.jpg").db = some [("a.jpg", [7])] ∧
    storeGet [("a.jpg", [7])] "a.jpg" = some [7] := by
  refine ⟨by decide, by decide, by decide⟩

/-- Claim C9: whenever the explicit caching fetch for a URL succeeds
with a 2xx status, `cacheImage` performs exactly one `store.put` of the
body bytes under that URL, and the store afterwards holds that entry,
reachable by lookup. -/
theorem cacheImage_roundtrip (fetch : Network) (store : Store) (url : Url)
    (r : Response) (hfetch : fetch url = some r) (hok : r.ok = true) :
    (cacheImage fetch (some store) url).db = some (storePut store url r.body) ∧
    (cacheImage fetch (some store) url).putCount = 1 ∧
    storeGet (storePut store url r.body) url = some r.body := by
  refine ⟨?_, ?_, storeGet_storePut store url r.body⟩ <;>
    simp [cacheImage, cacheImageTry, hfetch, hok]

/-- Concrete network for the C9 witness. -/
def fetchW : Network := fun _ => some { status := 200, body := [3, 4] }

theorem cacheImage_roundtrip_witness :
    storeGet (storePut [] "b.png" [3, 4]) "b.png" = some [3, 4] :=
  (cacheImage_roundtrip fetchW [] "b.png" { status := 200, body := [3, 4] }
    rfl rfl).2.2

/-- Claim C10: when the store handle is absent (`if (!this.db) return`,
line 50), `cacheImage` returns immediately: the explicit caching fetch
is never issued, no put is attempted, nothing is logged, and the handle
stays absent. -/
theorem cacheImage_no_db_noop (fetch : Network) (url : Url) :
    (cacheImage fetch none url).fetched = false ∧
    (cacheImage fetch none url).putCount = 0 ∧
    (cacheImage fetch none url).db = none ∧
    (cacheImage fetch none url).logged = none :=
  ⟨rfl, rfl, rfl, rfl⟩

/-- Embedding of `batchSize = 4` (line 114). -/
def batchSize : Nat := 4

/-- The scheduler's event-loop state: the pending queue
(`preloadingQueue`), the re-entrancy guard (`isPreloading`), the URLs of
the current batch whose `preloadImage` promises have not yet settled
(claimed but unsettled), and whether a call to `loadNextImages` is
currently scheduled to run. -/
structure RunState where
  queue : List Url
  isPreloading : Bool
  inFlight : List Url
  scheduled : Bool
deriving DecidableEq

/-- The synchronous head of `loadNextImages` (lines 111-115): `none` when
the guard is set or the queue is empty (the call no-ops); otherwise the
state after `this.isPreloading = true` and
`batch = this.preloadingQueue.splice(0, batchSize)`, with the batch
dispatched concurrently (all claimed at once). -/
def drainBegin (s : RunState) : Option (RunState × List Url) :=
  if s.isPreloading || s.queue.isEmpty then none
  else
    let batch := s.queue.take batchSize
    some ({ s with
              queue := s.queue.drop batchSize
              isPreloading := true
              inFlight := batch
              scheduled := false }, batch)

/-- How `loadNextImages` schedules its next run (lines 126-133). -/
inductive Resched where
  | noResched
  | idleCallback (timeoutMs : Nat)
  | delay (ms : Nat)
deriving DecidableEq

/-- The tail of `loadNextImages` after `await Promise.all` (lines
123-133): clear the guard, and if the queue is still non-empty schedule
another run — through `requestIdleCallback(..., { timeout: 1000 })` when
the idle primitive exists, else through `setTimeout(..., 100)`. -/
def drainEnd (idleAvailable : Bool) (s : RunState) : RunState × Resched :=
  ({ s with
       isPreloading := false
       inFlight := []
       scheduled := !s.queue.isEmpty },
   if s.queue.isEmpty then Resched.noResched
   else if idleAvailable then Resched.idleCallback 1000 else Resched.delay 100)

/-- Small-step event-loop semantics of the drain loop. A scheduled
`loadNextImages` call either no-ops (guard set or queue empty) or
dispatches a batch; an in-flight URL's `preloadImage` promise may settle
at any time; when every promise of the batch has settled, `Promise.all`
resumes the drain, which clears the guard and reschedules if the queue
is non-empty. -/
inductive Step : RunState → RunState → Prop where
  | drainNoop (s : RunState) :
      s.scheduled = true → drainBegin s = none →
      Step s { s with scheduled := false }
  | drainStart (s s1 : RunState) (batch : List Url) :
      s.scheduled = true → drainBegin s = some (s1, batch) →
      Step s s1
  | settle (s : RunState) (u : Url) :
      u ∈ s.inFlight →
      Step s { s with inFlight := s.inFlight.erase u }
  | batchDone (idleAvailable : Bool) (s : RunState) :
      s.isPreloading = true → s.inFlight = [] →
      Step s (drainEnd idleAvailable s).1

/-- The state right after `startPreloading` built the queue and called
`loadNextImages` (lines 104-107). -/
def initState (q0 : List Url) : RunState :=
  { queue := q0, isPreloading := false, inFlight := [], scheduled := true }

/-- States the drain loop can reach from a freshly built queue. -/
def Reachable (q0 : List Url) (s : RunState) : Prop :=
  Relation.ReflTransGen Step (initState q0) s

/-- The drain-loop invariant: never more than `batchSize` claimed but
unsettled URLs, and a cleared guard means no URL is unsettled. -/
def DrainInv (s : RunState) : Prop :=
  s.inFlight.length ≤ batchSize ∧ (s.isPreloading = false → s.inFlight = [])

theorem drainInv_init (q0 : List Url) : DrainInv (initState q0) := by
  constructor
  · simp [initState, batchSize]
  · intro _
    rfl

theorem drainInv_step {s t : RunState} (hs : DrainInv s) (hst : Step s t) :
    DrainInv t := by
  obtain ⟨hlen, hidle⟩ := hs
  cases hst with
  | drainNoop s h1 h2 => exact ⟨hlen, hidle⟩
  | drainStart s s1 batch h1 h2 =>
    rw [drainBegin] at h2
    by_cases hg : s.isPreloading || s.queue.isEmpty
    · rw [if_pos hg] at h2
      exact Option.noConfusion h2
    · rw [if_neg hg] at h2
      injection h2 with h3
      have hs1 : t = { s with
                         queue := s.queue.drop batchSize
                         isPreloading := true
                         inFlight := s.queue.take batchSize
                         scheduled := false } := (congrArg Prod.fst h3).symm
      subst hs1
      constructor
      · exact List.length_take_le batchSize s.queue
      · intro hfalse
        exact Bool.noConfusion hfalse
  | settle s u hu =>
    constructor
    · exact le_trans (List.erase_sublist u s.inFlight).length_le hlen
    · intro hfalse
      rw [hidle hfalse]
      rfl
  | batchDone idleAvailable s h1 h2 =>
    constructor
    · simp [drainEnd, batchSize]
    · intro _
      rfl

theorem drainInv_reachable {q0 : List Url} {s : RunState}
    (h : Reachable q0 s) : DrainInv s := by
  induction h with
  | refl => exact drainInv_init q0
  | tail _ hstep ih => exact drainInv_step ih hstep

/-- Claim C7: from any freshly built queue, every reachable scheduler
state has at most `batchSize = 4` URLs in the claimed-but-unsettled
state, and batches are strictly sequential: while the current batch has
an unsettled URL, no step enlarges the in-flight set — any dispatch of a
new batch can only happen from a state whose in-flight set is empty,
because dispatch requires the guard to be clear and a clear guard means
the previous batch has fully settled. -/
theorem concurrency_bound (q0 : List Url) (s : RunState)
    (h : Reachable q0 s) :
    s.inFlight.length ≤ 4 ∧
    (∀ t, Step s t → s.inFlight ≠ [] →
      List.Sublist t.inFlight s.inFlight) := by
  have hinv := drainInv_reachable h
  refine ⟨hinv.1, fun t hst hne => ?_⟩
  cases hst with
  | drainNoop s h1 h2 => exact List.Sublist.refl _
  | drainStart s s1 batch h1 h2 =>
    rw [drainBegin] at h2
    by_cases hg : s.isPreloading || s.queue.isEmpty
    · rw [if_pos hg] at h2
      exact Option.noConfusion h2
    · rw [if_neg hg] at h2
      have hfalse : s.isPreloading = false := by
        cases hp : s.isPreloading
        · rfl
        · rw [hp] at hg
          exact absurd rfl hg
      exact absurd (hinv.2 hfalse) hne
  | settle s u hu => exact List.erase_sublist u s.inFlight
  | batchDone idleAvailable s h1 h2 => exact absurd h2 hne

theorem concurrency_bound_witness :
    (initState ["a.jpg"]).inFlight.length ≤ 4 ∧
    (∀ t, Step (initState ["a.jpg"]) t → (initState ["a.jpg"]).inFlight ≠ [] →
      List.Sublist t.inFlight (initState ["a.jpg"]).inFlight) :=
  concurrency_bound ["a.jpg"] (initState ["a.jpg"]) Relation.ReflTransGen.refl

/-- Claim C6: `loadNextImages` no-ops exactly when a drain is in
progress or the queue is empty; otherwise it removes the first
`batchSize = 4` (or fewer) URLs from the front of the queue, sets the
guard and dispatches them all; `Promise.all` resumes only once the whole
batch has settled (a step can clear the guard only from an empty
in-flight set), after which the guard is cleared and, exactly when the
queue is still non-empty, another run is scheduled — through the idle
primitive when available, else through a fixed 100 ms delay. -/
theorem loadNextImages_spec (s : RunState) (idleAvailable : Bool) :
    (drainBegin s = none ↔ (s.isPreloading = true ∨ s.queue = [])) ∧
    (∀ s1 batch, drainBegin s = some (s1, batch) →
      batch = s.queue.take 4 ∧ batch.length ≤ 4 ∧
      s1.queue = s.queue.drop 4 ∧ s1.isPreloading = true ∧
      s1.inFlight = batch) ∧
    ((drainEnd idleAvailable s).1.isPreloading = false ∧
      (drainEnd idleAvailable s).1.inFlight = []) ∧
    ((drainEnd idleAvailable s).2 = Resched.noResched ↔ s.queue = []) ∧
    (s.queue ≠ [] → (drainEnd idleAvailable s).2 =
      if idleAvailable then Resched.idleCallback 1000 else Resched.delay 100) ∧
    (∀ t1 t2, Step t1 t2 → t1.isPreloading = true → t2.isPreloading = false →
      t1.inFlight = []) := by
  refine ⟨?_, ?_, ⟨rfl, rfl⟩, ?_, ?_, ?_⟩
  · rw [drainBegin]
    by_cases hg : s.isPreloading || s.queue.isEmpty
    · rw [if_pos hg]
      simp only [Bool.or_eq_true, List.isEmpty_iff] at hg
      simpa using hg
    · rw [if_neg hg]
      simp only [Bool.or_eq_true, List.isEmpty_iff] at hg
      push_neg at hg
      simp only [Bool.not_eq_true] at hg
      constructor
      · intro hc
        exact Option.noConfusion hc
      · rintro (h1 | h2)
        · rw [h1] at hg
          exact Bool.noConfusion hg.1
        · exact absurd h2 hg.2
  · intro s1 batch hsb
    rw [drainBegin] at hsb
    by_cases hg : s.isPreloading || s.queue.isEmpty
    · rw [if_pos hg] at hsb
      exact Option.noConfusion hsb
    · rw [if_neg hg] at hsb
      injection hsb with h3
      have hb : batch = s.queue.take batchSize := (congrArg Prod.snd h3).symm
      have hs1 : s1 = { s with
                          queue := s.queue.drop batchSize
                          isPreloading := true
                          inFlight := s.queue.take batchSize
                          scheduled := false } := (congrArg Prod.fst h3).symm
      subst hb
      subst hs1
      exact ⟨rfl, List.length_take_le batchSize s.queue, rfl, rfl, rfl⟩
  · rw [drainEnd]
    by_cases hq : s.queue.isEmpty
    · rw [if_pos hq]
      simp only [List.isEmpty_iff] at hq
      simpa using hq
    · rw [if_neg hq]
      simp only [List.isEmpty_iff] at hq
      constructor
      · intro hc
        cases idleAvailable <;> simp_all
      · intro hc
        exact absurd hc hq
  · intro hq
    rw [drainEnd]
    have hq' : s.queue.isEmpty = false := by
      cases he : s.queue.isEmpty
      · rfl
      · exact absurd (List.isEmpty_iff.mp he) hq
    rw [if_neg (by simp [hq'])]
  · intro t1 t2 hst hpre hpost
    cases hst with
    | drainNoop s h1 h2 =>
      rw [hpre] at hpost
      exact Bool.noConfusion hpost
    | drainStart s s1 batch h1 h2 =>
      rw [drainBegin, if_pos (by rw [hpre]; rfl)] at h2
      exact Option.noConfusion h2
    | settle s u hu =>
      rw [hpre] at hpost
      exact Bool.noConfusion hpost
    | batchDone idleAvailable s h1 h2 => exact h2

end Preload
